import Mathlib

/-!
# Verification of the JSON-RPC 2.0 client correlation core

Shallow embedding of the correlation logic of `async-jsonrpc-rs`
(`src/lib.rs` and `src/client.rs`): building uniquely identified requests,
validating a single response against its request, reconciling a batch of
responses against a batch of requests, and extracting typed results.

Modelling conventions:
* `serde_json::Value` is modelled by the inductive `Value`; JSON numbers are
  modelled as integers (`Int`), the only numeric values the correlation
  logic manipulates (request ids come from the `u64` nonce).  JSON objects
  are omitted: no id or correlated value in the logic under verification is
  an object.  Equality on `Value` is structural, as serde's `PartialEq`.
* The transport (`send_raw`, hyper, TLS, auth headers) is out of scope per
  the spec; the pure correlation step of each operation takes the decoded
  response(s) as an argument.
* `std::collections::HashMap` is modelled as an insertion-ordered
  association list: `insert` and `remove` have exactly the HashMap
  key/value semantics (structural key equality via `util::HashableValue`),
  and iteration over the remaining entries is fixed to insertion order
  (one admissible order; `std` leaves the iteration order unspecified).
* The `u64` nonce counter is modelled as a `Nat` reduced `% 2^64`.
-/

namespace AsyncJsonRpc

/-- JSON values (`serde_json::Value`) as the correlation logic sees them,
with numbers as integers.  Composite values (arrays/objects) are omitted:
identifiers are restricted to string, number or null by the protocol
(spec §3), the spec explicitly scopes composite ids out (§4.1, §9), and no
correlated value the claims mention is composite.  Equality is structural,
as serde's `PartialEq`. -/
inductive Value where
  | null : Value
  | bool (b : Bool) : Value
  | num (n : Int) : Value
  | str (s : String) : Value
  deriving DecidableEq, Repr

/-- Structure `error::RpcError` (src/error.rs is not in the sources; modelled from the
spec: `code` (integer), `message` (string), optional structured `data`). -/
structure RpcError where
  code : Int
  message : String
  data : Option Value
  deriving DecidableEq, Repr

/-- A `serde_json::Error` produced while decoding a result payload into the
caller's requested type.  The decoder is external (serde); only its
success/failure outcome matters here, so the error is an opaque message. -/
structure JsonError where
  msg : String
  deriving DecidableEq, Repr

/-- Enumeration `error::Error` (src/error.rs is not in the sources; modelled from the
spec's error taxonomy, §7).  The payload type of the two batch variants is
fixed by their call sites in `src/client.rs` (`dup.id`, `incorrect.1.id`):
they carry the offending response's id, a `Value`.  Transport errors are out
of scope. -/
inductive Error where
  | VersionMismatch : Error
  | NonceMismatch : Error
  | EmptyBatch : Error
  | WrongBatchResponseSize : Error
  | BatchDuplicateResponseId (id : Value) : Error
  | WrongBatchResponseId (id : Value) : Error
  | Rpc (e : RpcError) : Error
  | Json (e : JsonError) : Error
  deriving DecidableEq, Repr

/-- Structure `Request` (src/lib.rs lines 35-40). -/
structure Request where
  method : String
  params : List Value
  id : Value
  jsonrpc : Option String
  deriving DecidableEq, Repr

/-- Structure `Response` (src/lib.rs lines 44-49). -/
structure Response where
  result : Option Value
  error : Option RpcError
  id : Value
  jsonrpc : Option String
  deriving DecidableEq, Repr

/-- Model of `HashMap::insert(k, v)` on the association list: returns the value
previously stored at `k` (`none` if absent) together with the updated map.
Key comparison is structural `Value` equality, as `util::HashableValue`
(src/util.rs is not in the sources; modelled from the spec §4.1: equality
on the wrapped JSON value itself). -/
def hmInsert (m : List (Value × Response)) (k : Value) (v : Response) :
    Option Response × List (Value × Response) :=
  match m with
  | [] => (none, [(k, v)])
  | (k', v') :: rest =>
    if k' = k then
      (some v', (k', v) :: rest)
    else
      let (old, rest') := hmInsert rest k v
      (old, (k', v') :: rest')

/-- Model of `HashMap::remove(&k)` on the association list: returns the value
stored at `k` (`none` if absent) together with the map without that entry. -/
def hmRemove (m : List (Value × Response)) (k : Value) :
    Option Response × List (Value × Response) :=
  match m with
  | [] => (none, [])
  | (k', v') :: rest =>
    if k' = k then
      (some v', rest)
    else
      let (old, rest') := hmRemove rest k
      (old, (k', v') :: rest')

/-- The duplicate-catching indexing loop of `Client::send_batch`
(src/client.rs lines 155-162): index the responses by id; if an id is
already a key, fail with `BatchDuplicateResponseId` carrying the id of the
response previously stored there. -/
def buildMap : List Response → List (Value × Response) →
    Except Error (List (Value × Response))
  | [], m => .ok m
  | r :: rs, m =>
    match hmInsert m r.id r with
    | (some dup, _) => .error (.BatchDuplicateResponseId dup.id)
    | (none, m') => buildMap rs m'

/-- The matching loop of `Client::send_batch` (src/client.rs lines 164-165):
for each request in order, remove its id from the map, keeping the
`Option Response` produced; returns the results and the remaining map. -/
def matchRequests : List Request → List (Value × Response) →
    List (Option Response) × List (Value × Response)
  | [], m => ([], m)
  | q :: qs, m =>
    let (o, m') := hmRemove m q.id
    let (os, m'') := matchRequests qs m'
    (o :: os, m'')

/-- The pure reconciliation core of `Client::send_batch` (src/client.rs
lines 140-174), taking the decoded response list in place of the transport
round-trip.  Checks, in order: empty batch, oversized response list,
duplicate response ids; then matches responses to requests positionally by
id and rejects any response id that matched no request. -/
def sendBatch (requests : List Request) (responses : List Response) :
    Except Error (List (Option Response)) :=
  if requests.length < 1 then
    .error .EmptyBatch
  else if responses.length > requests.length then
    .error .WrongBatchResponseSize
  else
    match buildMap responses [] with
    | .error e => .error e
    | .ok m =>
      let (results, remaining) := matchRequests requests m
      match remaining with
      | [] => .ok results
      | (_, v) :: _ => .error (.WrongBatchResponseId v.id)

/-- Variant of `sendBatch` identical in every step except that the
remaining entries are enumerated in the reverse of insertion order —
another admissible iteration order for `resp_by_id.into_iter()`
(src/client.rs line 169), which runs on a std `HashMap` whose iteration
order is unspecified and randomized per map instance.  Used to exhibit
that the id reported by `WrongBatchResponseId` depends on that
unspecified order when more than one entry remains. -/
def sendBatchRevIter (requests : List Request) (responses : List Response) :
    Except Error (List (Option Response)) :=
  if requests.length < 1 then
    .error .EmptyBatch
  else if responses.length > requests.length then
    .error .WrongBatchResponseSize
  else
    match buildMap responses [] with
    | .error e => .error e
    | .ok m =>
      let (results, remaining) := matchRequests requests m
      match remaining.reverse with
      | [] => .ok results
      | (_, v) :: _ => .error (.WrongBatchResponseId v.id)

/-- The pure correlation step of `Client::send_request` (src/client.rs
lines 126-132), taking the decoded response in place of the transport
round-trip: version check, then id check, then the response unchanged. -/
def validateResponse (request : Request) (response : Response) :
    Except Error Response :=
  if response.jsonrpc ≠ none ∧ response.jsonrpc ≠ some "2.0" then
    .error .VersionMismatch
  else if response.id ≠ request.id then
    .error .NonceMismatch
  else
    .ok response

/-- Method `Response::result` (src/lib.rs lines 53-60), the non-consuming variant:
if `error` is set, fail with `Rpc`; otherwise run the caller's deserializer
on `result` (an absent result read as JSON null), mapping a decode failure
to `Json`.  The serde deserialization of the caller's type `T` is external
and passed in as `dec`; the source's `T::deserialize(&v)` and
`serde_json::from_value(v)` both run `T`'s one `Deserialize` impl on the
same value, so the two methods share `dec`. -/
def Response.result' {T : Type} (dec : Value → Except JsonError T)
    (r : Response) : Except Error T :=
  match r.error with
  | some e => .error (.Rpc e)
  | none =>
    match dec (r.result.getD .null) with
    | .ok t => .ok t
    | .error e => .error (.Json e)

/-- Method `Response::into_result` (src/lib.rs lines 63-69), the consuming variant:
same checks on the owned response. -/
def Response.intoResult {T : Type} (dec : Value → Except JsonError T)
    (r : Response) : Except Error T :=
  match r.error with
  | some e => .error (.Rpc e)
  | none =>
    match dec (r.result.getD .null) with
    | .ok t => .ok t
    | .error e => .error (.Json e)

/-- Behaviour of the serde deserializer for `()`: JSON null decodes to unit, anything else
is an invalid type (external collaborator behaviour, used by the
`into_result::<()>` scenario of the spec). -/
def decodeUnit : Value → Except JsonError Unit
  | .null => .ok ()
  | _ => .error ⟨"invalid type: expected unit"⟩

/-- Behaviour of the serde deserializer for `String`: a JSON string decodes to itself,
anything else is an invalid type (external collaborator behaviour). -/
def decodeString : Value → Except JsonError String
  | .str s => .ok s
  | _ => .error ⟨"invalid type: expected a string"⟩

/-- The `u64` range of the nonce counter. -/
def u64Size : Nat := 2 ^ 64

/-- Structure `Client` (src/client.rs lines 36-42): the hyper connection handle is
transport and out of scope; the `Arc<Mutex<u64>>` nonce is the counter
value itself, state threaded explicitly through `buildRequest`. -/
structure Client where
  url : String
  user : Option String
  pass : Option String
  nonce : Nat
  deriving DecidableEq, Repr

/-- Constructor `Client::new` (src/client.rs lines 51-62): fresh client with nonce 0. -/
def Client.new (url : String) (user : Option String) (pass : Option String) :
    Client :=
  { url := url, user := user, pass := pass, nonce := 0 }

/-- Method `Client::build_request` (src/client.rs lines 177-190): increment the
nonce (u64 arithmetic) and use the new value as the request's numeric id,
with `jsonrpc` set to "2.0".  Returns the request and the updated client
state (the source mutates through the mutex; the lock makes the
increment-and-read atomic, which explicit state passing captures). -/
def Client.buildRequest (c : Client) (name : String) (params : List Value) :
    Request × Client :=
  let nonce := (c.nonce + 1) % u64Size
  ({ method := name, params := params, id := .num (nonce : Int),
     jsonrpc := some "2.0" },
   { c with nonce := nonce })

/-- Accessor `Client::last_nonce` (src/client.rs lines 193-195). -/
def Client.lastNonce (c : Client) : Nat :=
  c.nonce

/-- Iteration of `build_request`: `n` successive calls (fixed method and params, which the
id sequence does not depend on), returning the issued request ids in
issuance order together with the final client state. -/
def Client.buildSeq (c : Client) (name : String) (params : List Value) :
    Nat → List Value × Client
  | 0 => ([], c)
  | n + 1 =>
    let (req, c') := c.buildRequest name params
    let (ids, c'') := c'.buildSeq name params n
    (req.id :: ids, c'')

/-- A request with the given id, shaped as `build_request` produces it
(concrete fixture). -/
def reqWithId (i : Value) : Request :=
  { method := "getinfo", params := [], id := i, jsonrpc := some "2.0" }

/-- A response with the given id and result and no error (concrete
fixture). -/
def respWithId (i : Value) (res : Option Value) : Response :=
  { result := res, error := none, id := i, jsonrpc := some "2.0" }

/-! ## Helper notions for the proofs -/

/-- First value stored at key `k` (specification device for the map). -/
def hmLookup (m : List (Value × Response)) (k : Value) : Option Response :=
  match m with
  | [] => none
  | (k', v') :: rest => if k' = k then some v' else hmLookup rest k

/-- The map that indexing a duplicate-free response list produces. -/
def toMap (rs : List Response) : List (Value × Response) :=
  rs.map (fun r => (r.id, r))

theorem keys_toMap (rs : List Response) :
    (toMap rs).map Prod.fst = rs.map (fun r => r.id) := by
  simp [toMap]

theorem hmLookup_eq_none {m : List (Value × Response)} {k : Value} :
    hmLookup m k = none ↔ k ∉ m.map Prod.fst := by
  induction m with
  | nil => simp [hmLookup]
  | cons e rest ih =>
    obtain ⟨k', v'⟩ := e
    by_cases h : k' = k
    · subst h
      simp [hmLookup]
    · simp [hmLookup, h, ih, Ne.symm h]

theorem hmInsert_fst (m : List (Value × Response)) (k : Value) (v : Response) :
    (hmInsert m k v).1 = hmLookup m k := by
  induction m with
  | nil => simp [hmInsert, hmLookup]
  | cons e rest ih =>
    obtain ⟨k', v'⟩ := e
    by_cases h : k' = k
    · simp [hmInsert, hmLookup, h]
    · simp [hmInsert, hmLookup, h, ih]

theorem hmInsert_snd_of_lookup_none {m : List (Value × Response)} {k : Value}
    (v : Response) (h : hmLookup m k = none) :
    (hmInsert m k v).2 = m ++ [(k, v)] := by
  induction m with
  | nil => simp [hmInsert]
  | cons e rest ih =>
    obtain ⟨k', v'⟩ := e
    by_cases hk : k' = k
    · simp [hmLookup, hk] at h
    · simp [hmLookup, hk] at h
      simp [hmInsert, hk, ih h]

theorem hmRemove_fst (m : List (Value × Response)) (k : Value) :
    (hmRemove m k).1 = hmLookup m k := by
  induction m with
  | nil => simp [hmRemove, hmLookup]
  | cons e rest ih =>
    obtain ⟨k', v'⟩ := e
    by_cases h : k' = k
    · simp [hmRemove, hmLookup, h]
    · simp [hmRemove, hmLookup, h, ih]

theorem hmRemove_snd_lookup_ne {m : List (Value × Response)} {k k' : Value}
    (h : k' ≠ k) : hmLookup (hmRemove m k).2 k' = hmLookup m k' := by
  induction m with
  | nil => simp [hmRemove]
  | cons e rest ih =>
    obtain ⟨k'', v''⟩ := e
    by_cases hk : k'' = k
    · subst hk
      have hne : ¬k'' = k' := fun hh => h hh.symm
      simp [hmRemove, hmLookup, hne]
    · by_cases hk' : k'' = k'
      · subst hk'
        simp [hmRemove, hk, hmLookup]
      · simp [hmRemove, hk, hmLookup, hk', ih]

theorem hmRemove_snd_of_nodup {m : List (Value × Response)} {k : Value}
    (h : (m.map Prod.fst).Nodup) :
    (hmRemove m k).2 = m.filter (fun e => decide (e.1 ≠ k)) := by
  induction m with
  | nil => simp [hmRemove]
  | cons e rest ih =>
    obtain ⟨k', v'⟩ := e
    simp only [List.map_cons, List.nodup_cons] at h
    by_cases hk : k' = k
    · subst hk
      have hself : rest.filter (fun e => !decide (e.1 = k')) = rest := by
        apply List.filter_eq_self.2
        intro e he
        have : e.1 ≠ k' := by
          intro hek
          exact h.1 (hek ▸ List.mem_map_of_mem Prod.fst he)
        simp [this]
      simp [hmRemove, hself]
    · simp [hmRemove, hk, ih h.2, hk]

theorem hmLookup_toMap_id {p : List Response} {k : Value} {v : Response}
    (h : hmLookup (toMap p) k = some v) : v.id = k := by
  induction p with
  | nil => simp [toMap, hmLookup] at h
  | cons r rest ih =>
    by_cases hk : r.id = k
    · simp [toMap, hmLookup, hk] at h
      rw [← h, hk]
    · simp [toMap, hmLookup, hk] at h
      exact ih (by simpa [toMap, hmLookup] using h)

theorem hmLookup_toMap_mem {rs : List Response} {k : Value} {v : Response}
    (h : hmLookup (toMap rs) k = some v) : v ∈ rs := by
  induction rs with
  | nil => simp [toMap, hmLookup] at h
  | cons r rest ih =>
    have hstep : hmLookup (toMap (r :: rest)) k
        = if r.id = k then some r else hmLookup (toMap rest) k := rfl
    rw [hstep] at h
    by_cases hk : r.id = k
    · rw [if_pos hk] at h
      injection h with h'
      subst h'
      simp
    · rw [if_neg hk] at h
      exact List.mem_cons_of_mem r (ih h)

theorem hmLookup_toMap_self {rs : List Response}
    (hrnd : (rs.map (fun r => r.id)).Nodup) {v : Response} (hmem : v ∈ rs) :
    hmLookup (toMap rs) v.id = some v := by
  induction rs with
  | nil => simp at hmem
  | cons r rest ih =>
    simp only [List.map_cons, List.nodup_cons] at hrnd
    rcases List.mem_cons.1 hmem with rfl | hvrest
    · have hstep : hmLookup (toMap (v :: rest)) v.id
          = if v.id = v.id then some v else hmLookup (toMap rest) v.id := rfl
      rw [hstep, if_pos rfl]
    · have hk : ¬r.id = v.id := by
        intro h
        exact hrnd.1 (h.symm ▸ List.mem_map_of_mem (fun r => r.id) hvrest)
      have hstep : hmLookup (toMap (r :: rest)) v.id
          = if r.id = v.id then some r else hmLookup (toMap rest) v.id := rfl
      rw [hstep, if_neg hk]
      exact ih hrnd.2 hvrest

theorem hmLookup_toMap_some_iff {rs : List Response}
    (hrnd : (rs.map (fun r => r.id)).Nodup) {k : Value} {v : Response} :
    hmLookup (toMap rs) k = some v ↔ v ∈ rs ∧ v.id = k := by
  constructor
  · intro h
    exact ⟨hmLookup_toMap_mem h, hmLookup_toMap_id h⟩
  · rintro ⟨hmem, hid⟩
    rw [← hid]
    exact hmLookup_toMap_self hrnd hmem

theorem hmLookup_toMap_none_iff {rs : List Response} {k : Value} :
    hmLookup (toMap rs) k = none ↔ ∀ r ∈ rs, r.id ≠ k := by
  rw [hmLookup_eq_none, keys_toMap]
  simp

theorem buildMap_ok_of_nodup {rs : List Response} {m : List (Value × Response)}
    (hdisj : ∀ r ∈ rs, r.id ∉ m.map Prod.fst)
    (hnd : (rs.map (fun r => r.id)).Nodup) :
    buildMap rs m = .ok (m ++ toMap rs) := by
  induction rs generalizing m with
  | nil => simp [buildMap, toMap]
  | cons r rest ih =>
    simp only [List.map_cons, List.nodup_cons] at hnd
    have hlk : hmLookup m r.id = none :=
      hmLookup_eq_none.2 (hdisj r (List.mem_cons_self r rest))
    have h1 : (hmInsert m r.id r).1 = none := by rw [hmInsert_fst]; exact hlk
    have h2 : (hmInsert m r.id r).2 = m ++ [(r.id, r)] :=
      hmInsert_snd_of_lookup_none r hlk
    have heq : hmInsert m r.id r = (none, m ++ [(r.id, r)]) :=
      Prod.ext_iff.2 ⟨h1, h2⟩
    have hdisj' : ∀ r' ∈ rest, r'.id ∉ (m ++ [(r.id, r)]).map Prod.fst := by
      intro r' hr'
      simp only [List.map_append, List.mem_append, List.map_cons, List.map_nil,
        List.mem_singleton]
      rintro (h | h)
      · exact hdisj r' (List.mem_cons_of_mem r hr') h
      · exact hnd.1 (h ▸ List.mem_map_of_mem (fun r => r.id) hr')
    have hstep : buildMap (r :: rest) m = buildMap rest (m ++ [(r.id, r)]) := by
      simp only [buildMap, heq]
    rw [hstep, ih hdisj' hnd.2]
    simp [toMap, List.append_assoc]

theorem buildMap_ok_nodup_keys {rs : List Response} {m m' : List (Value × Response)}
    (h : buildMap rs m = .ok m') (hnd : (m.map Prod.fst).Nodup) :
    ((m.map Prod.fst) ++ rs.map (fun r => r.id)).Nodup ∧ m' = m ++ toMap rs := by
  induction rs generalizing m with
  | nil =>
    simp only [buildMap] at h
    cases h
    simpa [toMap] using hnd
  | cons r rest ih =>
    cases hlk : hmLookup m r.id with
    | some dup =>
      have h1 : (hmInsert m r.id r).1 = some dup := by rw [hmInsert_fst]; exact hlk
      rcases hins : hmInsert m r.id r with ⟨o, m2⟩
      rw [hins] at h1
      subst h1
      have hstep : buildMap (r :: rest) m = .error (.BatchDuplicateResponseId dup.id) := by
        simp only [buildMap, hins]
      rw [hstep] at h
      cases h
    | none =>
      have h1 : (hmInsert m r.id r).1 = none := by rw [hmInsert_fst]; exact hlk
      have h2 : (hmInsert m r.id r).2 = m ++ [(r.id, r)] :=
        hmInsert_snd_of_lookup_none r hlk
      have heq : hmInsert m r.id r = (none, m ++ [(r.id, r)]) :=
        Prod.ext_iff.2 ⟨h1, h2⟩
      have hstep : buildMap (r :: rest) m = buildMap rest (m ++ [(r.id, r)]) := by
        simp only [buildMap, heq]
      rw [hstep] at h
      have hmem : r.id ∉ m.map Prod.fst := hmLookup_eq_none.1 hlk
      have hnd' : ((m ++ [(r.id, r)]).map Prod.fst).Nodup := by
        simp only [List.map_append, List.map_cons, List.map_nil]
        simp [List.nodup_append, hnd, hmem]
      obtain ⟨ha, hb⟩ := ih h hnd'
      constructor
      · simpa [List.append_assoc] using ha
      · simp only [hb, toMap, List.map_cons]
        simp

theorem buildMap_error_dup {rs : List Response} {m : List (Value × Response)}
    {e : Error} (h : buildMap rs m = .error e) :
    ∃ v, e = .BatchDuplicateResponseId v := by
  induction rs generalizing m with
  | nil => simp [buildMap] at h
  | cons r rest ih =>
    cases hlk : hmLookup m r.id with
    | some dup =>
      have h1 : (hmInsert m r.id r).1 = some dup := by rw [hmInsert_fst]; exact hlk
      rcases hins : hmInsert m r.id r with ⟨o, m2⟩
      rw [hins] at h1
      subst h1
      have hstep : buildMap (r :: rest) m = .error (.BatchDuplicateResponseId dup.id) := by
        simp only [buildMap, hins]
      rw [hstep] at h
      injection h with h'
      exact ⟨dup.id, h'.symm⟩
    | none =>
      have h1 : (hmInsert m r.id r).1 = none := by rw [hmInsert_fst]; exact hlk
      have h2 : (hmInsert m r.id r).2 = m ++ [(r.id, r)] :=
        hmInsert_snd_of_lookup_none r hlk
      have heq : hmInsert m r.id r = (none, m ++ [(r.id, r)]) :=
        Prod.ext_iff.2 ⟨h1, h2⟩
      have hstep : buildMap (r :: rest) m = buildMap rest (m ++ [(r.id, r)]) := by
        simp only [buildMap, heq]
      rw [hstep] at h
      exact ih h

theorem buildMap_error_first {rs : List Response} {p : List Response} {e : Error}
    (hnd : (p.map (fun r => r.id)).Nodup)
    (h : buildMap rs (toMap p) = .error e) :
    ∃ j, ∃ hj : j < rs.length,
      ((p ++ rs.take j).map (fun r => r.id)).Nodup ∧
      rs[j].id ∈ (p ++ rs.take j).map (fun r => r.id) ∧
      e = .BatchDuplicateResponseId rs[j].id := by
  induction rs generalizing p with
  | nil => simp [buildMap] at h
  | cons r rest ih =>
    cases hlk : hmLookup (toMap p) r.id with
    | some dup =>
      have h1 : (hmInsert (toMap p) r.id r).1 = some dup := by
        rw [hmInsert_fst]; exact hlk
      rcases hins : hmInsert (toMap p) r.id r with ⟨o, m2⟩
      rw [hins] at h1
      subst h1
      have hstep : buildMap (r :: rest) (toMap p)
          = .error (.BatchDuplicateResponseId dup.id) := by
        simp only [buildMap, hins]
      rw [hstep] at h
      injection h with h'
      have hdupid : dup.id = r.id := hmLookup_toMap_id hlk
      have hmem : r.id ∈ p.map (fun r => r.id) := by
        rw [← keys_toMap]
        by_contra hc
        exact absurd (hmLookup_eq_none.2 hc) (by simp [hlk])
      refine ⟨0, Nat.succ_pos _, ?_, ?_, ?_⟩
      · simpa using hnd
      · simpa using hmem
      · rw [← h', hdupid]
        simp
    | none =>
      have h1 : (hmInsert (toMap p) r.id r).1 = none := by
        rw [hmInsert_fst]; exact hlk
      have h2 : (hmInsert (toMap p) r.id r).2 = toMap p ++ [(r.id, r)] :=
        hmInsert_snd_of_lookup_none r hlk
      have heq : hmInsert (toMap p) r.id r = (none, toMap p ++ [(r.id, r)]) :=
        Prod.ext_iff.2 ⟨h1, h2⟩
      have hmapeq : toMap p ++ [(r.id, r)] = toMap (p ++ [r]) := by
        simp [toMap]
      have hstep : buildMap (r :: rest) (toMap p)
          = buildMap rest (toMap (p ++ [r])) := by
        rw [← hmapeq]
        simp only [buildMap, heq]
      rw [hstep] at h
      have hmem : r.id ∉ p.map (fun r => r.id) := by
        rw [← keys_toMap]
        exact hmLookup_eq_none.1 hlk
      have hnd' : ((p ++ [r]).map (fun r => r.id)).Nodup := by
        simp [List.nodup_append, hnd, hmem]
      obtain ⟨j, hj, ha, hb, hc⟩ := ih hnd' h
      refine ⟨j + 1, Nat.succ_lt_succ hj, ?_, ?_, ?_⟩
      · simpa [List.append_assoc] using ha
      · simpa [List.append_assoc] using hb
      · simpa using hc

theorem buildMap_error_not_nodup {rs : List Response}
    (h : ¬ (rs.map (fun r => r.id)).Nodup) :
    ∃ v, buildMap rs [] = .error (.BatchDuplicateResponseId v) := by
  cases hbm : buildMap rs [] with
  | ok m' =>
    exfalso
    obtain ⟨ha, _⟩ := buildMap_ok_nodup_keys hbm (by simp)
    simp only [List.map_nil, List.nil_append] at ha
    exact h ha
  | error e =>
    obtain ⟨v, rfl⟩ := buildMap_error_dup hbm
    exact ⟨v, rfl⟩

theorem matchRequests_cons (q : Request) (qs : List Request)
    (m : List (Value × Response)) :
    matchRequests (q :: qs) m =
      ((hmRemove m q.id).1 :: (matchRequests qs (hmRemove m q.id).2).1,
       (matchRequests qs (hmRemove m q.id).2).2) := rfl

theorem matchRequests_fst_length (qs : List Request)
    (m : List (Value × Response)) :
    (matchRequests qs m).1.length = qs.length := by
  induction qs generalizing m with
  | nil => simp [matchRequests]
  | cons q rest ih => simp [matchRequests_cons, ih]

theorem matchRequests_fst_getElem {qs : List Request}
    (hnd : (qs.map (fun q => q.id)).Nodup) {m : List (Value × Response)}
    {i : Nat} (hi : i < qs.length) :
    (matchRequests qs m).1[i]? = some (hmLookup m qs[i].id) := by
  induction qs generalizing m i with
  | nil => simp at hi
  | cons q rest ih =>
    simp only [List.map_cons, List.nodup_cons] at hnd
    cases i with
    | zero =>
      simp [matchRequests_cons, hmRemove_fst]
    | succ i =>
      have hi' : i < rest.length := Nat.lt_of_succ_lt_succ hi
      have hne : rest[i].id ≠ q.id := by
        intro hh
        exact hnd.1 (hh ▸ List.mem_map_of_mem (fun q => q.id)
          (List.getElem_mem hi'))
      rw [matchRequests_cons]
      have := ih hnd.2 (m := (hmRemove m q.id).2) hi'
      simp only [List.getElem?_cons_succ]
      rw [this]
      simp only [List.getElem_cons_succ]
      rw [hmRemove_snd_lookup_ne hne]

theorem matchRequests_snd_filter {qs : List Request}
    {m : List (Value × Response)} (hnd : (m.map Prod.fst).Nodup) :
    (matchRequests qs m).2
      = m.filter (fun e => decide (e.1 ∉ qs.map (fun q => q.id))) := by
  induction qs generalizing m with
  | nil => simp [matchRequests]
  | cons q rest ih =>
    rw [matchRequests_cons]
    have hrm : (hmRemove m q.id).2 = m.filter (fun e => decide (e.1 ≠ q.id)) :=
      hmRemove_snd_of_nodup hnd
    have hnd' : ((m.filter (fun e => decide (e.1 ≠ q.id))).map Prod.fst).Nodup :=
      hnd.sublist (List.Sublist.map Prod.fst (List.filter_sublist m))
    simp only [hrm]
    rw [ih hnd', List.filter_filter]
    congr 1
    funext e
    by_cases h1 : e.1 = q.id <;> simp [h1]

theorem not_nodup_iff_dup_pair {rs : List Response} :
    ¬ (rs.map (fun r => r.id)).Nodup ↔
      ∃ i j, ∃ hi : i < rs.length, ∃ hj : j < rs.length,
        i < j ∧ rs[i].id = rs[j].id := by
  constructor
  · intro h
    rw [List.Nodup, List.pairwise_iff_getElem] at h
    push_neg at h
    obtain ⟨i, j, hi, hj, hij, hEq⟩ := h
    rw [List.length_map] at hi hj
    refine ⟨i, j, hi, hj, hij, ?_⟩
    simpa using hEq
  · rintro ⟨i, j, hi, hj, hij, hEq⟩
    intro hnd
    rw [List.Nodup, List.pairwise_iff_getElem] at hnd
    exact hnd i j (by simpa using hi) (by simpa using hj) hij
      (by simpa using hEq)

theorem toMap_cons (r : Response) (rest : List Response) :
    toMap (r :: rest) = (r.id, r) :: toMap rest := rfl

theorem filter_toMap (rs : List Response) (p : Value → Bool) :
    (toMap rs).filter (fun e => p e.1) = toMap (rs.filter (fun r => p r.id)) := by
  induction rs with
  | nil => simp [toMap]
  | cons r rest ih =>
    by_cases h : p r.id
    · simp [toMap_cons, List.filter_cons, h, ih]
    · simp [toMap_cons, List.filter_cons, h, ih]

theorem find?_eq_head?_of_filter {α : Type} (p : α → Bool) (l : List α) :
    l.find? p = (l.filter p).head? := by
  induction l with
  | nil => simp
  | cons a l ih =>
    by_cases h : p a
    · rw [List.find?_cons_of_pos l h, List.filter_cons_of_pos h]
      simp
    · rw [List.find?_cons_of_neg l h, List.filter_cons_of_neg h, ih]

theorem sendBatch_checks_length {qs : List Request} {rs : List Response}
    (hne : qs ≠ []) (hlen : rs.length ≤ qs.length) :
    (¬ qs.length < 1) ∧ (¬ rs.length > qs.length) := by
  constructor
  · cases qs with
    | nil => exact absurd rfl hne
    | cons q qs => simp
  · exact Nat.not_lt.2 hlen

theorem sendBatch_of_buildMap_error {qs : List Request} {rs : List Response}
    {e : Error} (hne : qs ≠ []) (hlen : rs.length ≤ qs.length)
    (h : buildMap rs [] = .error e) : sendBatch qs rs = .error e := by
  obtain ⟨h1, h2⟩ := sendBatch_checks_length hne hlen
  simp only [sendBatch, if_neg h1, if_neg h2, h]

theorem sendBatch_of_remaining_nil {qs : List Request} {rs : List Response}
    {m : List (Value × Response)} (hne : qs ≠ []) (hlen : rs.length ≤ qs.length)
    (h : buildMap rs [] = .ok m) (hrem : (matchRequests qs m).2 = []) :
    sendBatch qs rs = .ok (matchRequests qs m).1 := by
  obtain ⟨h1, h2⟩ := sendBatch_checks_length hne hlen
  simp only [sendBatch, if_neg h1, if_neg h2, h]
  rcases hmr : matchRequests qs m with ⟨results, remaining⟩
  rw [hmr] at hrem
  simp only at hrem
  subst hrem
  simp

theorem sendBatch_of_remaining_cons {qs : List Request} {rs : List Response}
    {m : List (Value × Response)} {k : Value} {v : Response}
    {rest : List (Value × Response)}
    (hne : qs ≠ []) (hlen : rs.length ≤ qs.length)
    (h : buildMap rs [] = .ok m)
    (hrem : (matchRequests qs m).2 = (k, v) :: rest) :
    sendBatch qs rs = .error (.WrongBatchResponseId v.id) := by
  obtain ⟨h1, h2⟩ := sendBatch_checks_length hne hlen
  simp only [sendBatch, if_neg h1, if_neg h2, h]
  rcases hmr : matchRequests qs m with ⟨results, remaining⟩
  rw [hmr] at hrem
  simp only at hrem
  subst hrem
  simp

theorem buildSeq_spec (c : Client) (name : String) (params : List Value)
    (n : Nat) (h : c.nonce + n < u64Size) :
    (c.buildSeq name params n).1
      = (List.range' (c.nonce + 1) n).map (fun k => Value.num (k : Int)) ∧
    (c.buildSeq name params n).2 = { c with nonce := c.nonce + n } := by
  induction n generalizing c with
  | zero =>
    refine ⟨rfl, ?_⟩
    show c = { c with nonce := c.nonce + 0 }
    cases c
    simp
  | succ n ih =>
    have hlt : c.nonce + 1 < u64Size := by omega
    have hmod : (c.nonce + 1) % u64Size = c.nonce + 1 := Nat.mod_eq_of_lt hlt
    have hstep : c.buildSeq name params (n + 1) =
        ((c.buildRequest name params).1.id ::
          (((c.buildRequest name params).2).buildSeq name params n).1,
         (((c.buildRequest name params).2).buildSeq name params n).2) := rfl
    have hc' : (c.buildRequest name params).2 = { c with nonce := c.nonce + 1 } := by
      simp [Client.buildRequest, hmod]
    have hid : (c.buildRequest name params).1.id
        = Value.num ((c.nonce + 1 : Nat) : Int) := by
      simp [Client.buildRequest, hmod]
    have hrec := ih { c with nonce := c.nonce + 1 }
      (by show c.nonce + 1 + n < u64Size; omega)
    obtain ⟨ha, hb⟩ := hrec
    rw [hstep, hc', hid]
    constructor
    · show Value.num ((c.nonce + 1 : Nat) : Int) ::
          (({ c with nonce := c.nonce + 1 } : Client).buildSeq name params n).1
        = (List.range' (c.nonce + 1) (n + 1)).map (fun k => Value.num (k : Int))
      rw [ha]
      rfl
    · show (({ c with nonce := c.nonce + 1 } : Client).buildSeq name params n).2
        = { c with nonce := c.nonce + (n + 1) }
      rw [hb]
      congr 1
      show c.nonce + 1 + n = c.nonce + (n + 1)
      omega

/-! ## Claim theorems -/

/-- C4: Single-response validation (the correlation step of
`send_request`): it fails with `VersionMismatch` when the response's
`jsonrpc` field is present and not equal to "2.0" (an absent field is
tolerated and does not fail); otherwise it fails with `NonceMismatch` when
the response's id is not structurally equal to the request's id; otherwise
it returns the response unchanged. -/
theorem validateResponse_spec (req : Request) (resp : Response) :
    (∀ v, resp.jsonrpc = some v → v ≠ "2.0" →
      validateResponse req resp = .error .VersionMismatch) ∧
    ((resp.jsonrpc = none ∨ resp.jsonrpc = some "2.0") → resp.id ≠ req.id →
      validateResponse req resp = .error .NonceMismatch) ∧
    ((resp.jsonrpc = none ∨ resp.jsonrpc = some "2.0") → resp.id = req.id →
      validateResponse req resp = .ok resp) := by
  refine ⟨?_, ?_, ?_⟩
  · intro v hv hne
    have hcond : resp.jsonrpc ≠ none ∧ resp.jsonrpc ≠ some "2.0" := by
      refine ⟨by simp [hv], ?_⟩
      rw [hv]
      intro hh
      injection hh with hh'
      exact hne hh'
    simp [validateResponse, hcond]
  · intro hv hid
    have hcond : ¬(resp.jsonrpc ≠ none ∧ resp.jsonrpc ≠ some "2.0") := by
      rcases hv with h | h <;> simp [h]
    simp [validateResponse, hcond, hid]
  · intro hv hid
    have hcond : ¬(resp.jsonrpc ≠ none ∧ resp.jsonrpc ≠ some "2.0") := by
      rcases hv with h | h <;> simp [h]
    simp [validateResponse, hcond, hid]

/-- Witness for `validateResponse_spec`: the three branches at concrete
request/response pairs. -/
theorem validateResponse_spec_witness :
    validateResponse (reqWithId (.num 1))
      { result := none, error := none, id := .num 1, jsonrpc := some "1.0" }
      = .error .VersionMismatch ∧
    validateResponse (reqWithId (.num 1))
      { result := none, error := none, id := .num 2, jsonrpc := none }
      = .error .NonceMismatch ∧
    validateResponse (reqWithId (.num 1))
      { result := none, error := none, id := .num 1, jsonrpc := some "2.0" }
      = .ok { result := none, error := none, id := .num 1, jsonrpc := some "2.0" } :=
  ⟨(validateResponse_spec _ _).1 "1.0" rfl (by decide),
   (validateResponse_spec _ _).2.1 (Or.inl rfl) (by decide),
   (validateResponse_spec _ _).2.2 (Or.inr rfl) rfl⟩

/-- C5: Result extraction: a set `error` field always yields `Rpc`
with the structured error unchanged, regardless of `result`; otherwise the
result — an absent result read as JSON null — is decoded into the caller's
type, a decode failure is wrapped in `Json`, and `into_result::<()>` on
`{result: null, error: null}` succeeds. -/
theorem intoResult_spec (T : Type) (dec : Value → Except JsonError T)
    (r : Response) :
    (∀ e, r.error = some e → r.intoResult dec = .error (.Rpc e)) ∧
    (r.error = none → ∀ t, dec (r.result.getD .null) = .ok t →
      r.intoResult dec = .ok t) ∧
    (r.error = none → ∀ je, dec (r.result.getD .null) = .error je →
      r.intoResult dec = .error (.Json je)) ∧
    Response.intoResult decodeUnit
      { result := none, error := none, id := .str "test", jsonrpc := none }
      = .ok () := by
  refine ⟨?_, ?_, ?_, rfl⟩
  · intro e he
    simp [Response.intoResult, he]
  · intro he t ht
    simp [Response.intoResult, he, ht]
  · intro he je hje
    simp [Response.intoResult, he, hje]

/-- Witness for `intoResult_spec`: an error response with a result still
yields `Rpc`; decoding null as `String` fails with `Json`; decoding null
as `()` succeeds. -/
theorem intoResult_spec_witness :
    Response.intoResult decodeUnit
      { result := some (.num 5), error := some ⟨-32600, "Invalid Request", none⟩,
        id := .null, jsonrpc := some "2.0" }
      = .error (.Rpc ⟨-32600, "Invalid Request", none⟩) ∧
    Response.intoResult decodeString
      { result := none, error := none, id := .str "test", jsonrpc := none }
      = .error (.Json ⟨"invalid type: expected a string"⟩) ∧
    Response.intoResult decodeUnit
      { result := none, error := none, id := .str "test", jsonrpc := none }
      = .ok () :=
  ⟨(intoResult_spec Unit decodeUnit _).1 _ rfl,
   (intoResult_spec String decodeString _).2.2.1 rfl _ rfl,
   (intoResult_spec Unit decodeUnit
      { result := none, error := none, id := .str "test", jsonrpc := none }).2.2.2⟩

/-- C9: The non-consuming `result` accessor and the consuming
`into_result` agree for every response and every decoder: the same decoded
value on success, and an error of the same kind (`Rpc` with the same
`RpcError`, or the same `Json` decode error) in the same cases. -/
theorem result_eq_intoResult (T : Type) (dec : Value → Except JsonError T)
    (r : Response) : Response.result' dec r = Response.intoResult dec r := rfl

/-- C8: Reconciling an empty request list fails with `EmptyBatch` for
every response list: the empty-batch check precedes every other check. -/
theorem sendBatch_nil_empty (rs : List Response) :
    sendBatch [] rs = .error .EmptyBatch := rfl

/-- C7 counterexample: The claim quantifies over *every*
requests/responses pair with strictly more responses than requests, but
with an empty request list `send_batch` fails with `EmptyBatch`, not
`WrongBatchResponseSize`: the empty-batch check runs first
(src/client.rs lines 141-143). -/
theorem sendBatch_size_counterexample :
    ([] : List Request).length < [respWithId (.num 1) none].length ∧
    sendBatch [] [respWithId (.num 1) none] ≠ .error .WrongBatchResponseSize := by
  refine ⟨by decide, ?_⟩
  intro h
  rw [show sendBatch [] [respWithId (.num 1) none] = .error .EmptyBatch from rfl] at h
  injection h with h'
  exact Error.noConfusion h'

/-- C7 amended: For every *non-empty* request list, whenever the
response list is strictly longer `send_batch` fails with
`WrongBatchResponseSize`; the duplicate-id and unmatched-id checks never
preempt it (the conclusion holds for every response list, duplicated or
unmatched ids included). -/
theorem sendBatch_wrong_size (qs : List Request) (rs : List Response)
    (hne : qs ≠ []) (hlen : rs.length > qs.length) :
    sendBatch qs rs = .error .WrongBatchResponseSize := by
  have h1 : ¬ qs.length < 1 := by
    cases qs with
    | nil => exact absurd rfl hne
    | cons q qs => simp
  simp [sendBatch, h1, hlen]

/-- Witness for `sendBatch_wrong_size`: one request, two responses. -/
theorem sendBatch_wrong_size_witness :
    sendBatch [reqWithId (.num 1)]
      [respWithId (.num 1) none, respWithId (.num 2) none]
      = .error .WrongBatchResponseSize :=
  sendBatch_wrong_size _ _ (by decide) (by decide)

/-- C6: Each `build_request` call advances the nonce counter by exactly
one (`u64` arithmetic) and uses the new value as the request's numeric id,
with `jsonrpc` set to the literal "2.0"; hence `n` successive calls on a
fresh client issue exactly the ids `1, 2, ..., n` (`List.range' 1 n` — the
consecutive integers from 1, so no gaps and no duplicates) in issuance
order, and `last_nonce` returns 0 on the fresh client and the
most-recently-issued `n` afterwards.  `n` is bounded by the `u64` range of
the counter. -/
theorem buildRequest_ids (url : String) (user pass : Option String)
    (name : String) (params : List Value) (n : Nat) (h : n < u64Size) :
    (Client.new url user pass).lastNonce = 0 ∧
    ((Client.new url user pass).buildSeq name params n).1
      = (List.range' 1 n).map (fun k => Value.num (k : Int)) ∧
    ((Client.new url user pass).buildSeq name params n).2.lastNonce = n ∧
    (∀ c : Client,
      (c.buildRequest name params).1.jsonrpc = some "2.0" ∧
      (c.buildRequest name params).2.lastNonce = (c.lastNonce + 1) % u64Size ∧
      (c.buildRequest name params).1.id
        = Value.num (((c.lastNonce + 1) % u64Size : Nat) : Int)) := by
  have hs := buildSeq_spec (Client.new url user pass) name params n
    (by show 0 + n < u64Size; omega)
  refine ⟨rfl, ?_, ?_, ?_⟩
  · rw [hs.1]
    have h0 : (Client.new url user pass).nonce = 0 := rfl
    rw [h0]
  · rw [hs.2]
    show 0 + n = n
    omega
  · intro c
    exact ⟨rfl, rfl, rfl⟩

/-- Witness for `buildRequest_ids`: three calls on a fresh client issue
ids 1, 2, 3. -/
theorem buildRequest_ids_witness :
    3 < u64Size ∧
    ((Client.new "http://s" none none).buildSeq "getinfo" [] 3).1
      = [Value.num 1, Value.num 2, Value.num 3] := by
  have h3 : 3 < u64Size := by norm_num [u64Size]
  refine ⟨h3, ?_⟩
  rw [(buildRequest_ids "http://s" none none "getinfo" [] 3 h3).2.1]
  rfl

/-- C1 counterexample: The claim's positional biconditional fails when
REQUEST ids are duplicated, a case its hypotheses do not exclude: requests
`[id 1, id 1]` and responses `[id 1]` satisfy them all (non-empty requests,
no more responses than requests, duplicate-free response ids, every
response id structurally equal to some request's id), yet position 1 holds
`none` although a response whose id equals request 1's id exists — the
single response is consumed by the earlier duplicate request. -/
theorem sendBatch_aligned_counterexample :
    sendBatch [reqWithId (.num 1), reqWithId (.num 1)]
      [respWithId (.num 1) none]
      = .ok [some (respWithId (.num 1) none), none] ∧
    (respWithId (.num 1) none).id = (reqWithId (.num 1)).id := ⟨rfl, rfl⟩

/-- C1 amended: For every non-empty request list *with pairwise
distinct request ids* and responses at most as many as requests, with
duplicate-free response ids each structurally equal to some request id,
`send_batch` returns `Ok` with a list of the same length as the requests,
positionally aligned: position `i` holds `some resp` exactly when `resp`
is the response whose id equals request `i`'s id, and `none` exactly when
no response carries that id (a missing response is not an error) — so
responses arriving in any order are restored to request order. -/
theorem sendBatch_aligned (qs : List Request) (rs : List Response)
    (hne : qs ≠ []) (hlen : rs.length ≤ qs.length)
    (hqnd : (qs.map (fun q => q.id)).Nodup)
    (hrnd : (rs.map (fun r => r.id)).Nodup)
    (hcov : ∀ r ∈ rs, r.id ∈ qs.map (fun q => q.id)) :
    ∃ results, sendBatch qs rs = .ok results ∧
      results.length = qs.length ∧
      (∀ i, ∀ hi : i < qs.length, ∀ resp : Response,
        (results[i]? = some (some resp) ↔ resp ∈ rs ∧ resp.id = qs[i].id)) ∧
      (∀ i, ∀ hi : i < qs.length,
        (results[i]? = some none ↔ ∀ resp ∈ rs, resp.id ≠ qs[i].id)) := by
  have hbm : buildMap rs [] = .ok (toMap rs) := by
    have := buildMap_ok_of_nodup (m := []) (fun r hr => by simp) hrnd
    simpa using this
  have hkeys : ((toMap rs).map Prod.fst).Nodup := by
    rw [keys_toMap]
    exact hrnd
  have hrem : (matchRequests qs (toMap rs)).2 = [] := by
    rw [matchRequests_snd_filter hkeys]
    rw [List.filter_eq_nil_iff]
    intro e he
    rcases List.mem_map.1 he with ⟨r, hr, rfl⟩
    simpa using hcov r hr
  have hok : sendBatch qs rs = .ok (matchRequests qs (toMap rs)).1 :=
    sendBatch_of_remaining_nil hne hlen hbm hrem
  refine ⟨_, hok, matchRequests_fst_length qs (toMap rs), ?_, ?_⟩
  · intro i hi resp
    rw [matchRequests_fst_getElem hqnd hi]
    simp only [Option.some.injEq]
    exact hmLookup_toMap_some_iff hrnd
  · intro i hi
    rw [matchRequests_fst_getElem hqnd hi]
    simp only [Option.some.injEq]
    exact hmLookup_toMap_none_iff

/-- Witness for `sendBatch_aligned`: the spec's concrete scenario —
requests with ids "1","2","3" against out-of-order responses for "2" and
"1" — reconciles to a 3-slot, request-ordered result. -/
theorem sendBatch_aligned_witness :
    ∃ results,
      sendBatch
        [reqWithId (.str "1"), reqWithId (.str "2"), reqWithId (.str "3")]
        [respWithId (.str "2") (some (.num 19)),
         respWithId (.str "1") (some (.num 7))]
        = .ok results ∧ results.length = 3 := by
  obtain ⟨results, hok, hlen, -, -⟩ :=
    sendBatch_aligned
      [reqWithId (.str "1"), reqWithId (.str "2"), reqWithId (.str "3")]
      [respWithId (.str "2") (some (.num 19)),
       respWithId (.str "1") (some (.num 7))]
      (by decide) (by decide) (by decide) (by decide) (by decide)
  exact ⟨results, hok, by simpa using hlen⟩

/-- C2 counterexample: The claim's "exactly when two or more responses
share a structurally equal *non-null* id" is false: a batch whose two
responses both carry a JSON null id — so no two responses share a non-null
id — still fails with `BatchDuplicateResponseId` (carrying null). -/
theorem sendBatch_dup_counterexample :
    (∀ r ∈ [respWithId .null none, respWithId .null (some (.num 2))],
      r.id = Value.null) ∧
    sendBatch [reqWithId (.num 1), reqWithId (.num 2)]
      [respWithId .null none, respWithId .null (some (.num 2))]
      = .error (.BatchDuplicateResponseId .null) := ⟨by decide, rfl⟩

/-- C2 amended: Once the empty-batch and size checks pass,
`send_batch` fails with `BatchDuplicateResponseId` exactly when two or
more responses share a structurally equal id — null included — and the
carried value is the id of the first duplicated occurrence in response
order: the id under which the first-seen response was stored (structurally
equal, by definition of the collision, to the later duplicate's id).  The
error payload is that id, the value the call site passes
(src/client.rs line 160). -/
theorem sendBatch_dup_spec (qs : List Request) (rs : List Response)
    (hne : qs ≠ []) (hlen : rs.length ≤ qs.length) :
    ((∃ v, sendBatch qs rs = .error (.BatchDuplicateResponseId v)) ↔
      ∃ i j, ∃ hi : i < rs.length, ∃ hj : j < rs.length,
        i < j ∧ rs[i].id = rs[j].id) ∧
    (∀ v, sendBatch qs rs = .error (.BatchDuplicateResponseId v) →
      ∃ j, ∃ hj : j < rs.length,
        ((rs.take j).map (fun r => r.id)).Nodup ∧
        rs[j].id ∈ (rs.take j).map (fun r => r.id) ∧
        v = rs[j].id) := by
  have hbridge : ∀ v, sendBatch qs rs = .error (.BatchDuplicateResponseId v)
      ↔ buildMap rs [] = .error (.BatchDuplicateResponseId v) := by
    intro v
    constructor
    · intro h
      cases hbm : buildMap rs [] with
      | error e =>
        rw [sendBatch_of_buildMap_error hne hlen hbm] at h
        injection h with h'
        rw [h']
      | ok m =>
        rcases hrm : (matchRequests qs m).2 with _ | ⟨⟨k, v'⟩, rest⟩
        · rw [sendBatch_of_remaining_nil hne hlen hbm hrm] at h
          exact Except.noConfusion h
        · rw [sendBatch_of_remaining_cons hne hlen hbm hrm] at h
          injection h with h'
          exact Error.noConfusion h'
    · intro h
      exact sendBatch_of_buildMap_error hne hlen h
  constructor
  · constructor
    · rintro ⟨v, h⟩
      rw [hbridge] at h
      obtain ⟨j, hj, -, hmem, -⟩ :=
        buildMap_error_first (p := []) (by simp)
          (show buildMap rs (toMap []) = _ from h)
      simp only [List.nil_append] at hmem
      rcases List.mem_map.1 hmem with ⟨r', hr', hid⟩
      obtain ⟨i, hi, hgot⟩ := List.mem_iff_getElem.1 hr'
      have hilt : i < j := by
        have := hi
        simp only [List.length_take] at this
        omega
      have hirs : i < rs.length := Nat.lt_of_lt_of_le hilt (Nat.le_of_lt hj)
      refine ⟨i, j, hirs, hj, hilt, ?_⟩
      have : rs[i] = r' := by
        rw [← hgot]
        exact (List.getElem_take rs).symm ▸ rfl
      rw [this, hid]
    · rintro ⟨i, j, hi, hj, hij, hEq⟩
      have hnn : ¬ (rs.map (fun r => r.id)).Nodup :=
        not_nodup_iff_dup_pair.2 ⟨i, j, hi, hj, hij, hEq⟩
      obtain ⟨v, hv⟩ := buildMap_error_not_nodup hnn
      exact ⟨v, (hbridge v).2 hv⟩
  · intro v h
    rw [hbridge] at h
    obtain ⟨j, hj, hnd, hmem, hEq⟩ :=
      buildMap_error_first (p := []) (by simp)
        (show buildMap rs (toMap []) = _ from h)
    refine ⟨j, hj, by simpa using hnd, by simpa using hmem, ?_⟩
    injection hEq

/-- Witness for `sendBatch_dup_spec`: the spec's "two responses sharing id
5" scenario fails with `BatchDuplicateResponseId`. -/
theorem sendBatch_dup_spec_witness :
    ∃ v, sendBatch [reqWithId (.num 1), reqWithId (.num 2), reqWithId (.num 3)]
      [respWithId (.str "5") (some (.num 1)), respWithId (.str "5") (some (.num 2))]
      = .error (.BatchDuplicateResponseId v) :=
  (sendBatch_dup_spec
    [reqWithId (.num 1), reqWithId (.num 2), reqWithId (.num 3)]
    [respWithId (.str "5") (some (.num 1)), respWithId (.str "5") (some (.num 2))]
    (by decide) (by decide)).1.2
    ⟨0, 1, by decide, by decide, by decide, rfl⟩

/-- C3 code-bug evidence: a batch that passes the empty, size and
duplicate checks with two unmatched responses (ids "8" and "9", neither
requested).  The reconciliation reaches the `WrongBatchResponseId` branch
with both entries still in the map, and the reported id then depends on
the iteration order of the remaining entries: enumerating them in
insertion order reports "8", in the reverse order reports "9".  Both are
admissible behaviours of `resp_by_id.into_iter().nth(0)` on a std
`HashMap` (src/client.rs line 169), whose iteration order is unspecified
and randomized per map instance — so the deterministic first-remaining
choice the claim requires (and spec §4.4 step 5 and §9 prescribe, e.g. via
an order-preserving container) is not a property the code has. -/
theorem sendBatch_unmatched_order_dependent :
    sendBatch [reqWithId (.num 1), reqWithId (.num 2)]
      [respWithId (.str "8") none, respWithId (.str "9") none]
      = .error (.WrongBatchResponseId (.str "8")) ∧
    sendBatchRevIter [reqWithId (.num 1), reqWithId (.num 2)]
      [respWithId (.str "8") none, respWithId (.str "9") none]
      = .error (.WrongBatchResponseId (.str "9")) := ⟨rfl, rfl⟩

/-- C10: Null response ids are keyed in the id-to-response map exactly
like any other id value: a batch (passing the empty and size checks) whose
responses include two JSON null ids fails with `BatchDuplicateResponseId`,
even though a null id correlates to no request — the null case is not
exempted from the duplicate check. -/
theorem sendBatch_null_dup (qs : List Request) (rs : List Response)
    (hne : qs ≠ []) (hlen : rs.length ≤ qs.length)
    (i j : Nat) (hi : i < rs.length) (hj : j < rs.length) (hij : i < j)
    (hni : rs[i].id = .null) (hnj : rs[j].id = .null) :
    ∃ v, sendBatch qs rs = .error (.BatchDuplicateResponseId v) := by
  have hnn : ¬ (rs.map (fun r => r.id)).Nodup :=
    not_nodup_iff_dup_pair.2 ⟨i, j, hi, hj, hij, by rw [hni, hnj]⟩
  obtain ⟨v, hv⟩ := buildMap_error_not_nodup hnn
  exact ⟨v, sendBatch_of_buildMap_error hne hlen hv⟩

/-- Witness for `sendBatch_null_dup`: two null-id responses against two
requests. -/
theorem sendBatch_null_dup_witness :
    ∃ v, sendBatch [reqWithId (.num 1), reqWithId (.num 2)]
      [respWithId .null none, respWithId .null (some (.num 3))]
      = .error (.BatchDuplicateResponseId v) :=
  sendBatch_null_dup [reqWithId (.num 1), reqWithId (.num 2)]
    [respWithId .null none, respWithId .null (some (.num 3))]
    (by decide) (by decide) 0 1 (by decide) (by decide) (by decide) rfl rfl

end AsyncJsonRpc
